import Mathlib

/-!
# Token signing of the `tinkoff` client

A shallow embedding of `client.go`, `cancel.go` and `getstate.go`:

* Go strings are byte sequences (`GoString`), compared byte-wise as Go's `<` does;
* a Go `map[string]string` is an association list with pairwise distinct keys;
  the order of the list is the (unspecified) order in which `range` visits it;
* `crypto/sha256`, `sort.Strings` and the `%x` verb of `fmt` are standard-library
  code; they are embedded from their definitions (FIPS 180-4 for the digest).
-/

namespace Tinkoff

/-! ## Strings -/

/-- A byte. -/
abbrev Byte := Fin 256

/-- A Go `string`: an immutable sequence of bytes. -/
abbrev GoString := List Byte

/-- The bytes of a Go string literal (Go source text is UTF-8). -/
def str (s : String) : GoString :=
  (s.toList.flatMap String.utf8EncodeChar).map (fun b => Fin.ofNat b.toNat)

/-- Go's `a < b` on strings: the first differing byte decides, and a proper
prefix is smaller. -/
def strLess : GoString → GoString → Bool
  | [], [] => false
  | [], _ :: _ => true
  | _ :: _, [] => false
  | a :: as, b :: bs =>
    if a < b then true else if b < a then false else strLess as bs

/-! ## `crypto/sha256` -/

/-- The working state `h [8]uint32` of a SHA-256 digest. -/
structure Digest where
  h0 : Nat
  h1 : Nat
  h2 : Nat
  h3 : Nat
  h4 : Nat
  h5 : Nat
  h6 : Nat
  h7 : Nat
deriving DecidableEq, Repr

/-- The initial hash value (`init0 .. init7`). -/
def initDigest : Digest :=
  ⟨0x6A09E667, 0xBB67AE85, 0x3C6EF372, 0xA54FF53A,
   0x510E527F, 0x9B05688C, 0x1F83D9AB, 0x5BE0CD19⟩

/-- The round constants `_K`. -/
def roundK : List Nat :=
  [0x428a2f98, 0x71374491, 0xb5c0fbcf, 0xe9b5dba5, 0x3956c25b, 0x59f111f1, 0x923f82a4, 0xab1c5ed5,
   0xd807aa98, 0x12835b01, 0x243185be, 0x550c7dc3, 0x72be5d74, 0x80deb1fe, 0x9bdc06a7, 0xc19bf174,
   0xe49b69c1, 0xefbe4786, 0x0fc19dc6, 0x240ca1cc, 0x2de92c6f, 0x4a7484aa, 0x5cb0a9dc, 0x76f988da,
   0x983e5152, 0xa831c66d, 0xb00327c8, 0xbf597fc7, 0xc6e00bf3, 0xd5a79147, 0x06ca6351, 0x14292967,
   0x27b70a85, 0x2e1b2138, 0x4d2c6dfc, 0x53380d13, 0x650a7354, 0x766a0abb, 0x81c2c92e, 0x92722c85,
   0xa2bfe8a1, 0xa81a664b, 0xc24b8b70, 0xc76c51a3, 0xd192e819, 0xd6990624, 0xf40e3585, 0x106aa070,
   0x19a4c116, 0x1e376c08, 0x2748774c, 0x34b0bcb5, 0x391c0cb3, 0x4ed8aa4a, 0x5b9cca4f, 0x682e6ff3,
   0x748f82ee, 0x78a5636f, 0x84c87814, 0x8cc70208, 0x90befffa, 0xa4506ceb, 0xbef9a3f7, 0xc67178f2]

/-- Addition of `uint32` values. -/
def add32 (x y : Nat) : Nat := (x + y) % 2 ^ 32

/-- Rotation of a `uint32` to the right by `n` bits, `bits.RotateLeft32(x, -n)`. -/
def rotr32 (x n : Nat) : Nat := ((x >>> n) ||| (x <<< (32 - n))) % 2 ^ 32

/-- Bitwise complement of a `uint32`. -/
def not32 (x : Nat) : Nat := x ^^^ 0xFFFFFFFF

/-- The big-endian `uint32` made of four bytes. -/
def beWord (b0 b1 b2 b3 : Nat) : Nat := b0 <<< 24 ||| b1 <<< 16 ||| b2 <<< 8 ||| b3

/-- The first sixteen words of the message schedule, read from a 64-byte block. -/
def blockWords (p : List Byte) : List Nat :=
  (List.range 16).map fun i =>
    beWord (p.getD (4 * i) 0).val (p.getD (4 * i + 1) 0).val
      (p.getD (4 * i + 2) 0).val (p.getD (4 * i + 3) 0).val

/-- One more word of the message schedule, `w[i]` for `i = w.length ≥ 16`. -/
def scheduleStep (w : List Nat) : List Nat :=
  let i := w.length
  let v1 := w.getD (i - 2) 0
  let t1 := rotr32 v1 17 ^^^ rotr32 v1 19 ^^^ (v1 >>> 10)
  let v2 := w.getD (i - 15) 0
  let t2 := rotr32 v2 7 ^^^ rotr32 v2 18 ^^^ (v2 >>> 3)
  w ++ [add32 (add32 (add32 t1 (w.getD (i - 7) 0)) t2) (w.getD (i - 16) 0)]

/-- The 64 words of the message schedule of a block. -/
def schedule (p : List Byte) : List Nat :=
  (List.range 48).foldl (fun w _ => scheduleStep w) (blockWords p)

/-- One round of the compression function on the working variables `a .. h`. -/
def round (s : Digest) (kw : Nat × Nat) : Digest :=
  let t1 := add32 (add32 (add32 (add32 s.h7
      (rotr32 s.h4 6 ^^^ rotr32 s.h4 11 ^^^ rotr32 s.h4 25))
      ((s.h4 &&& s.h5) ^^^ (not32 s.h4 &&& s.h6))) kw.1) kw.2
  let t2 := add32 (rotr32 s.h0 2 ^^^ rotr32 s.h0 13 ^^^ rotr32 s.h0 22)
      ((s.h0 &&& s.h1) ^^^ (s.h0 &&& s.h2) ^^^ (s.h1 &&& s.h2))
  ⟨add32 t1 t2, s.h0, s.h1, s.h2, add32 s.h3 t1, s.h4, s.h5, s.h6⟩

/-- The compression of one 64-byte block into the digest state. -/
def block (d : Digest) (p : List Byte) : Digest :=
  let s := (roundK.zip (schedule p)).foldl round d
  ⟨add32 d.h0 s.h0, add32 d.h1 s.h1, add32 d.h2 s.h2, add32 d.h3 s.h3,
   add32 d.h4 s.h4, add32 d.h5 s.h5, add32 d.h6 s.h6, add32 d.h7 s.h7⟩

/-- The big-endian bytes of an unsigned number of `n` bytes. -/
def beBytes : Nat → Nat → List Byte
  | 0, _ => []
  | n + 1, x => Fin.ofNat (x / 256 ^ n) :: beBytes n x

/-- The padded message: a `0x80` byte, zeros up to 56 modulo 64, and the length
in bits as a big-endian `uint64`. -/
def pad (msg : List Byte) : List Byte :=
  msg ++ [0x80] ++ List.replicate ((119 - msg.length % 64) % 64) 0
    ++ beBytes 8 (msg.length * 8 % 2 ^ 64)

/-- The digest state after all blocks of the padded message. -/
def hashBlocks (msg : List Byte) : Digest :=
  let p := pad msg
  (List.range (p.length / 64)).foldl
    (fun d i => block d ((p.drop (64 * i)).take 64)) initDigest

/-- `sha256.Sum256`: the 32-byte SHA-256 checksum of the data. -/
def sum256 (data : List Byte) : List Byte :=
  let d := hashBlocks data
  beBytes 4 d.h0 ++ beBytes 4 d.h1 ++ beBytes 4 d.h2 ++ beBytes 4 d.h3 ++
  beBytes 4 d.h4 ++ beBytes 4 d.h5 ++ beBytes 4 d.h6 ++ beBytes 4 d.h7

/-! ## `fmt.Sprintf("%x", sum)` -/

/-- The digit table `ldigits` of package `fmt`. -/
def ldigits : List Byte := str "0123456789abcdef"

/-- The `%x` verb on a byte array: two digits of `ldigits` per byte, the high
nibble first. -/
def sprintfHex (b : List Byte) : GoString :=
  b.flatMap fun c => [ldigits.getD (c.val >>> 4) 0, ldigits.getD (c.val &&& 0xF) 0]

/-! ## `map[string]string` -/

/-- A Go `map[string]string`, as the list of its entries in the order in which
`range` visits them. Go leaves that order unspecified; the keys of a map are
pairwise distinct (`GoMap.WF`). -/
structure GoMap where
  entries : List (GoString × GoString)
deriving DecidableEq, Repr

namespace GoMap

/-- The keys, in iteration order. -/
def keys (m : GoMap) : List GoString := m.entries.map Prod.fst

/-- Well-formedness: no key occurs twice. -/
def WF (m : GoMap) : Prop := m.keys.Nodup

instance (m : GoMap) : Decidable m.WF := inferInstanceAs (Decidable (List.Nodup _))

/-- The two-valued lookup `x, ok := m[k]`. -/
def lookup (m : GoMap) (k : GoString) : Option GoString := m.entries.lookup k

/-- Whether `k` is a key of `m`. -/
def contains (m : GoMap) (k : GoString) : Bool := (m.lookup k).isSome

/-- The index expression `m[k]`: the zero value `""` for an absent key. -/
def get (m : GoMap) (k : GoString) : GoString := (m.lookup k).getD []

/-- The entries after the assignment `m[k] = x`. -/
def setEntries (k x : GoString) : List (GoString × GoString) → List (GoString × GoString)
  | [] => [(k, x)]
  | e :: es => if e.1 = k then (k, x) :: es else e :: setEntries k x es

/-- The assignment `m[k] = x`. -/
def set (m : GoMap) (k x : GoString) : GoMap := ⟨setEntries k x m.entries⟩

end GoMap

/-! ## `sort.Strings` -/

/-- The order `a <= b` of Go strings, as `!(b < a)`. -/
def strLE (a b : GoString) : Prop := strLess b a = false

instance : DecidableRel strLE := fun a b => inferInstanceAs (Decidable (strLess b a = false))

/-- `sort.Strings`: the strings in increasing order. -/
def sortStrings (x : List GoString) : List GoString := x.insertionSort strLE

/-! ## `client.go` -/

/-- The bytes written to the buffer `b` of `generateToken`: the keys are
collected by `range`, sorted, and the value of each key is appended. -/
def tokenInput (v : GoMap) : List Byte :=
  let keys := v.entries.foldl (fun keys e => keys ++ [e.1]) []
  let keys := sortStrings keys
  keys.foldl (fun b key => b ++ v.get key) []

/-- The function `generateToken` of the source. -/
def generateToken (v : GoMap) : GoString :=
  let sum := sum256 (tokenInput v)
  sprintfHex sum

/-- The struct `client` of the source. -/
structure client where
  terminalKey : GoString
  password : GoString
  baseURL : GoString
deriving DecidableEq, Repr

/-- The constant `APIV2BaseURL`. -/
def APIV2BaseURL : GoString := str "https://securepay.tinkoff.ru/v2"

/-- The constructor `NewClient`. -/
def NewClient (terminalKey password : GoString) : client :=
  ⟨terminalKey, password, APIV2BaseURL⟩

/-- Modelled from the spec: the interface `RequestInterface` is declared outside
the given sources. A signable request exposes its token-relevant fields and
accepts the identity and the computed token. -/
class RequestInterface (ρ : Type) where
  SetTerminalKey : ρ → GoString → ρ
  GetValuesForToken : ρ → GoMap
  SetToken : ρ → GoString → ρ

/-- Modelled from the spec: the struct `BaseRequest` and its two setters are
declared outside the given sources. Every request carries the identity and the
token, both filled in by the dispatcher. -/
structure BaseRequest where
  TerminalKey : GoString
  Token : GoString
deriving DecidableEq, Repr

/-- The method `secureRequest`; the request is updated through its pointer, so
the updated request is the result. -/
def client.secureRequest {ρ : Type} [RequestInterface ρ] (c : client) (request : ρ) : ρ :=
  let request := RequestInterface.SetTerminalKey request c.terminalKey
  let v := RequestInterface.GetValuesForToken request
  let v := v.set (str "TerminalKey") c.terminalKey
  let v := v.set (str "Password") c.password
  RequestInterface.SetToken request (generateToken v)

/-! ## `getstate.go` -/

/-- The struct `GetStateRequest`. -/
structure GetStateRequest extends BaseRequest where
  PaymentID : GoString
  ClientIP : GoString
deriving DecidableEq, Repr

/-- The method `GetStateRequest.GetValuesForToken`. -/
def GetStateRequest.GetValuesForToken (i : GetStateRequest) : GoMap :=
  ⟨[(str "IP", i.ClientIP), (str "PaymentId", i.PaymentID)]⟩

instance : RequestInterface GetStateRequest where
  SetTerminalKey r key := { r with TerminalKey := key }
  GetValuesForToken := GetStateRequest.GetValuesForToken
  SetToken r token := { r with Token := token }

/-! ## `cancel.go` -/

/-- The decimal rendering of an unsigned number. -/
def decimal (n : Nat) : GoString := str (Nat.repr n)

/-- Modelled from the spec: the helper `serializeUintToMapIfNonEmpty` is defined
outside the given sources. A numeric field is rendered as a decimal string, and a
field with its zero value is excluded entirely. -/
def serializeUintToMapIfNonEmpty (m : GoMap) (key : GoString) (val : Nat) : GoMap :=
  if val ≠ 0 then m.set key (decimal val) else m

/-- The struct `CancelRequest`; `Amount` is a `uint64`, and the type of the
receipt, declared outside the given sources, is a parameter. -/
structure CancelRequest (Receipt : Type) extends BaseRequest where
  PaymentID : GoString
  ClientIP : GoString
  Amount : Nat
  Receipt : Option Receipt

/-- The method `CancelRequest.GetValuesForToken`. -/
def CancelRequest.GetValuesForToken {Receipt : Type} (i : CancelRequest Receipt) : GoMap :=
  let v : GoMap := ⟨[(str "PaymentId", i.PaymentID), (str "IP", i.ClientIP)]⟩
  let v := serializeUintToMapIfNonEmpty v (str "Amount") i.Amount
  v

instance {Receipt : Type} : RequestInterface (CancelRequest Receipt) where
  SetTerminalKey r key := { r with TerminalKey := key }
  GetValuesForToken := CancelRequest.GetValuesForToken
  SetToken r token := { r with Token := token }

/-! ## Responses -/

/-- An `error` value: a message from a library, or the error derived from a
response envelope. -/
inductive GoError where
  | failure (message : GoString)
  | api (errorCode errorMessage : GoString)
deriving DecidableEq, Repr

/-- An `*http.Response`, reduced to its body. -/
structure HttpResponse where
  Body : List Byte
deriving DecidableEq, Repr

/-- Modelled from the spec: the struct `BaseResponse` is declared outside the
given sources. It is the envelope shared by all responses. -/
structure BaseResponse where
  Success : Bool
  ErrorCode : GoString
  ErrorMessage : GoString
  Details : GoString
deriving DecidableEq, Repr

/-- Modelled from the spec: the method `BaseResponse.Error` is defined outside the
given sources. It returns nil when the envelope signals success, and otherwise an
error carrying the upstream error code and message. -/
def BaseResponse.Error (e : BaseResponse) : Option GoError :=
  if e.Success then none else some (GoError.api e.ErrorCode e.ErrorMessage)

/-- The struct `GetStateResponse`. -/
structure GetStateResponse extends BaseResponse where
  OrderID : GoString
  Status : GoString
  PaymentID : GoString
deriving DecidableEq, Repr

/-- The struct `CancelResponse`; the amounts are `uint64`. -/
structure CancelResponse extends BaseResponse where
  OriginalAmount : Nat
  NewAmount : Nat
  OrderID : GoString
  Status : GoString
  PaymentID : GoString
deriving DecidableEq, Repr

/-- The collaborators of a call: `json.Marshal` of the request, `http.Post` of
the payload to a URL, and the JSON decoding of a body into a zero-valued result
(the decoder returns the filled result and an error). A pair of a value and an
error is a pair of options, nil being `none`. -/
structure Collaborators (ρ σ : Type) where
  marshal : ρ → List Byte × Option GoError
  post : GoString → List Byte → Option HttpResponse × Option GoError
  decode : List Byte → σ × Option GoError

/-- The method `decodeResponse`. -/
def client.decodeResponse {ρ σ : Type} (_c : client) (io : Collaborators ρ σ)
    (response : HttpResponse) : σ × Option GoError :=
  io.decode response.Body

/-- The method `PostRequest`. -/
def client.PostRequest {ρ σ : Type} [RequestInterface ρ] (c : client) (io : Collaborators ρ σ)
    (url : GoString) (request : ρ) : Option HttpResponse × Option GoError :=
  let request := c.secureRequest request
  let (data, err) := io.marshal request
  match err with
  | some e => (none, some e)
  | none =>
    let (resp, err) := io.post (c.baseURL ++ url) data
    (resp, err)

/-- The method `Cancel`. The result is `none` when the call dereferences a nil
response (a nil response without an error, which `http.Post` never returns). -/
def client.Cancel {Receipt : Type} (c : client)
    (io : Collaborators (CancelRequest Receipt) CancelResponse)
    (request : CancelRequest Receipt) : Option (Option CancelResponse × Option GoError) :=
  let (response, err) := c.PostRequest io (str "/Cancel") request
  match err with
  | some e => some (none, some e)
  | none =>
    match response with
    | none => none
    | some response =>
      let (res, err) := c.decodeResponse io response
      match err with
      | some e => some (none, some e)
      | none => some (some res, res.toBaseResponse.Error)

/-- The method `GetState`; `none` as for `Cancel`. -/
def client.GetState (c : client) (io : Collaborators GetStateRequest GetStateResponse)
    (request : GetStateRequest) : Option (Option GetStateResponse × Option GoError) :=
  let (response, err) := c.PostRequest io (str "/GetState") request
  match err with
  | some e => some (none, some e)
  | none =>
    match response with
    | none => none
    | some response =>
      let (res, err) := c.decodeResponse io response
      match err with
      | some e => some (none, some e)
      | none => some (some res, res.toBaseResponse.Error)

/-! ## The specification's vocabulary -/

/-- Byte-wise lexicographic order, as the specification words it. -/
def bytewiseLt (a b : GoString) : Prop := List.Lex (· < ·) a b

/-- The entries are in ascending order of their keys. -/
def AscendingByKey (es : List (GoString × GoString)) : Prop :=
  es.Pairwise fun e f => bytewiseLt e.1 f.1

/-- A hexadecimal digit in lower case: `0` to `9`, then `a` to `f`. -/
def hexDigit (d : Nat) : Byte := if d < 10 then Fin.ofNat (48 + d) else Fin.ofNat (87 + d)

/-- The lowercase hexadecimal rendering of a byte sequence. -/
def lowerHex (b : List Byte) : GoString :=
  b.flatMap fun c => [hexDigit (c.val / 16), hexDigit (c.val % 16)]

instance (a b : GoString) : Decidable (bytewiseLt a b) :=
  inferInstanceAs (Decidable (List.Lex (· < ·) a b))

instance (es : List (GoString × GoString)) : Decidable (AscendingByKey es) :=
  inferInstanceAs (Decidable (List.Pairwise _ es))

/-- The mapping `F` is `base` extended with `"TerminalKey"` and `"Password"`
mapped to the credentials of the client: a well-formed mapping that has these two
entries and agrees with `base` on every other key. -/
def ExtendsWithCredentials (F base : GoMap) (c : client) : Prop :=
  F.WF ∧ ∀ k, F.lookup k =
    if k = str "Password" then some c.password
    else if k = str "TerminalKey" then some c.terminalKey
    else base.lookup k

/-- The field mapping of the concrete scenario of the specification. -/
def scenarioFields : GoMap :=
  ⟨[(str "PaymentId", str "12345"), (str "IP", str ""),
    (str "TerminalKey", str "TestTerm"), (str "Password", str "secretpwd")]⟩

/-- The client of the concrete scenario. -/
def scenarioClient : client := NewClient (str "TestTerm") (str "secretpwd")

/-- A state query with `ClientIP` `"1"` and `PaymentID` `"23"`. -/
def stateQueryA : GetStateRequest := ⟨⟨[], []⟩, str "23", str "1"⟩

/-- A state query with `ClientIP` `"12"` and `PaymentID` `"3"`. -/
def stateQueryB : GetStateRequest := ⟨⟨[], []⟩, str "3", str "12"⟩

/-- A state query whose `ClientIP` is left at its zero value. -/
def stateQueryNoIP : GetStateRequest := ⟨⟨[], []⟩, str "12345", []⟩

/-- A cancellation whose `ClientIP` and `Amount` are left at their zero values. -/
def cancelNoIP : CancelRequest Unit := ⟨⟨[], []⟩, str "12345", [], 0, none⟩

/-- An envelope that reports a failure with error code `"1"`. -/
def failedEnvelope : BaseResponse := ⟨false, str "1", str "declined", []⟩

/-- The cancellation response decoded from such an envelope. -/
def failedCancel : CancelResponse := ⟨failedEnvelope, 0, 0, [], str "REJECTED", str "12345"⟩

/-- The state response decoded from such an envelope. -/
def failedState : GetStateResponse := ⟨failedEnvelope, [], str "REJECTED", str "12345"⟩

/-- Collaborators whose transport and decoding succeed, the decoded response
being `res`. -/
def answering {ρ σ : Type} (res : σ) : Collaborators ρ σ :=
  ⟨fun _ => ([], none), fun _ _ => (some ⟨[]⟩, none), fun _ => (res, none)⟩

/-- For the credentials of `c`, a state query with an empty `ClientIP` and the
`PaymentID` `"2" + password`. -/
def collidingA (c : client) : GetStateRequest := ⟨⟨[], []⟩, str "2" ++ c.password, []⟩

/-- For the credentials of `c`, a state query with the `ClientIP`
`password + "2"` and an empty `PaymentID`. -/
def collidingB (c : client) : GetStateRequest := ⟨⟨[], []⟩, [], c.password ++ str "2"⟩

/-- The value of a lowercase hexadecimal digit. -/
def hexValue (b : Byte) : Nat := if b.val < 58 then b.val - 48 else b.val - 87

/-- The byte sequence read back from its lowercase hexadecimal rendering. -/
def readHex : List Byte → List Byte
  | a :: b :: rest => Fin.ofNat (16 * hexValue a + hexValue b) :: readHex rest
  | _ => []

/-- The field mapping of the scenario, its entries in ascending order of keys. -/
def scenarioSorted : GoMap :=
  ⟨[(str "IP", str ""), (str "Password", str "secretpwd"),
    (str "PaymentId", str "12345"), (str "TerminalKey", str "TestTerm")]⟩

/-! ## Strings and sorting -/

theorem strLess_iff_lex (a b : GoString) : strLess a b = true ↔ bytewiseLt a b := by
  unfold bytewiseLt
  induction a generalizing b with
  | nil =>
    cases b with
    | nil => simp [strLess]
    | cons y ys => simp [strLess, List.Lex.nil]
  | cons x xs ih =>
    cases b with
    | nil => simp [strLess]
    | cons y ys =>
      simp only [strLess]
      rcases lt_trichotomy x y with h | h | h
      · simp [h, List.Lex.rel h]
      · subst h
        simp only [lt_self_iff_false, if_false]
        rw [ih ys, List.Lex.cons_iff]
      · have h1 : ¬ x < y := not_lt.mpr h.le
        simp only [h1, h, if_false, if_true]
        constructor
        · intro hf
          cases hf
        · intro hl
          cases hl with
          | cons h2 => exact absurd h (lt_irrefl _)
          | rel h2 => exact absurd h2 h1

theorem strLE_iff (a b : GoString) : strLE a b ↔ ¬ bytewiseLt b a := by
  unfold strLE
  rw [← strLess_iff_lex]
  simp

theorem bytewiseLt_asymm {a b : GoString} (h : bytewiseLt a b) : ¬ bytewiseLt b a :=
  (List.Lex.isAsymm (α := Byte) (· < ·)).asymm a b h

theorem bytewiseLt_trichotomous (a b : GoString) :
    bytewiseLt a b ∨ a = b ∨ bytewiseLt b a :=
  (List.Lex.isTrichotomous (α := Byte) (· < ·)).trichotomous a b

theorem bytewiseLt_conn {a c : GoString} (b : GoString) (h : bytewiseLt a c) :
    bytewiseLt a b ∨ bytewiseLt b c :=
  (List.Lex.isOrderConnected (α := Byte) (· < ·)).conn a b c h

theorem bytewiseLt_irrefl (a : GoString) : ¬ bytewiseLt a a :=
  fun h => bytewiseLt_asymm h h

theorem strLE_total (a b : GoString) : strLE a b ∨ strLE b a := by
  rw [strLE_iff, strLE_iff]
  by_contra h
  push_neg at h
  exact bytewiseLt_asymm h.1 h.2

theorem strLE_trans (a b c : GoString) (hab : strLE a b) (hbc : strLE b c) : strLE a c := by
  rw [strLE_iff] at *
  intro hca
  rcases bytewiseLt_conn b hca with h | h
  · exact hbc h
  · exact hab h

theorem strLE_antisymm (a b : GoString) (hab : strLE a b) (hba : strLE b a) : a = b := by
  rw [strLE_iff] at *
  rcases bytewiseLt_trichotomous a b with h | h | h
  · exact absurd h hba
  · exact h
  · exact absurd h hab

theorem sortStrings_perm (x : List GoString) : (sortStrings x).Perm x :=
  List.perm_insertionSort strLE x

theorem sortStrings_sorted (x : List GoString) : (sortStrings x).Sorted strLE := by
  haveI : IsTotal GoString strLE := ⟨strLE_total⟩
  haveI : IsTrans GoString strLE := ⟨strLE_trans⟩
  exact List.sorted_insertionSort strLE x

theorem sortStrings_eq_of_perm {x y : List GoString} (h : x.Perm y) :
    sortStrings x = sortStrings y := by
  haveI : IsAntisymm GoString strLE := ⟨strLE_antisymm⟩
  exact List.eq_of_perm_of_sorted
    (((sortStrings_perm x).trans h).trans (sortStrings_perm y).symm)
    (sortStrings_sorted x) (sortStrings_sorted y)

theorem sortStrings_eq_self {x : List GoString} (h : x.Pairwise bytewiseLt) :
    sortStrings x = x := by
  haveI : IsAntisymm GoString strLE := ⟨strLE_antisymm⟩
  refine List.eq_of_perm_of_sorted (sortStrings_perm x) (sortStrings_sorted x) ?_
  refine List.Pairwise.imp ?_ h
  intro a b hab
  rw [strLE_iff]
  exact bytewiseLt_asymm hab

theorem sortStrings_strict {x : List GoString} (h : x.Nodup) :
    (sortStrings x).Pairwise bytewiseLt := by
  have h1 : (sortStrings x).Pairwise strLE := sortStrings_sorted x
  have h2 : (sortStrings x).Pairwise (· ≠ ·) := ((sortStrings_perm x).nodup_iff).mpr h
  refine List.Pairwise.imp ?_ (h1.and h2)
  intro a b hab
  rcases bytewiseLt_trichotomous a b with h3 | h3 | h3
  · exact h3
  · exact absurd h3 hab.2
  · exact absurd h3 ((strLE_iff a b).mp hab.1)

/-! ## Maps -/

theorem foldl_collect_keys (l : List (GoString × GoString)) (acc : List GoString) :
    l.foldl (fun keys e => keys ++ [e.1]) acc = acc ++ l.map Prod.fst := by
  induction l generalizing acc with
  | nil => simp
  | cons e es ih => simp [ih]

theorem foldl_write (f : GoString → GoString) (ks : List GoString) (acc : List Byte) :
    ks.foldl (fun b key => b ++ f key) acc = acc ++ ks.flatMap f := by
  induction ks generalizing acc with
  | nil => simp
  | cons k ks ih => simp [ih]

theorem tokenInput_eq (v : GoMap) :
    tokenInput v = (sortStrings v.keys).flatMap v.get := by
  simp [tokenInput, foldl_collect_keys, foldl_write, GoMap.keys]

theorem lookup_of_mem {es : List (GoString × GoString)} (h : (es.map Prod.fst).Nodup)
    {k x : GoString} (hm : (k, x) ∈ es) : es.lookup k = some x := by
  induction es with
  | nil => cases hm
  | cons e es ih =>
    obtain ⟨k1, x1⟩ := e
    rw [List.map_cons, List.nodup_cons] at h
    rcases List.mem_cons.mp hm with h1 | h1
    · injection h1 with h2 h3
      subst h2
      subst h3
      simp [List.lookup]
    · have hne : k ≠ k1 := by
        rintro rfl
        exact h.1 (List.mem_map.mpr ⟨(k, x), h1, rfl⟩)
      have hb : (k == k1) = false := by simpa using hne
      simp only [List.lookup, hb]
      exact ih h.2 h1

theorem lookup_eq_none_of_not_mem {es : List (GoString × GoString)} {k : GoString}
    (h : k ∉ es.map Prod.fst) : es.lookup k = none := by
  induction es with
  | nil => rfl
  | cons e es ih =>
    obtain ⟨k1, x1⟩ := e
    simp only [List.map_cons, List.mem_cons, not_or] at h
    have hb : (k == k1) = false := by simpa using h.1
    simp only [List.lookup, hb]
    exact ih h.2

theorem lookup_isSome_iff (es : List (GoString × GoString)) (k : GoString) :
    (es.lookup k).isSome = true ↔ k ∈ es.map Prod.fst := by
  induction es with
  | nil => simp [List.lookup]
  | cons e es ih =>
    obtain ⟨k1, x1⟩ := e
    by_cases hk : k = k1
    · subst hk
      simp [List.lookup]
    · have hb : (k == k1) = false := by simpa using hk
      simp only [List.lookup, hb, List.map_cons, List.mem_cons, hk, false_or]
      exact ih

theorem GoMap.get_of_mem {v : GoMap} (hv : v.WF) {k x : GoString} (hm : (k, x) ∈ v.entries) :
    v.get k = x := by
  simp [GoMap.get, GoMap.lookup, lookup_of_mem hv hm]

theorem flatMap_get_entries {v : GoMap} (hv : v.WF) (es : List (GoString × GoString))
    (hsub : ∀ e ∈ es, e ∈ v.entries) :
    (es.map Prod.fst).flatMap v.get = es.flatMap Prod.snd := by
  induction es with
  | nil => rfl
  | cons e es ih =>
    obtain ⟨k, x⟩ := e
    have h1 : v.get k = x := GoMap.get_of_mem hv (hsub (k, x) (List.mem_cons_self _ _))
    have h2 := ih (fun e he => hsub e (List.mem_cons_of_mem _ he))
    simp only [List.map_cons, List.flatMap_cons, h1, h2]

theorem lookup_setEntries (k x k' : GoString) (es : List (GoString × GoString)) :
    (GoMap.setEntries k x es).lookup k' = if k' = k then some x else es.lookup k' := by
  induction es with
  | nil =>
    by_cases h : k' = k
    · simp [GoMap.setEntries, List.lookup, h]
    · have hb : (k' == k) = false := by simpa using h
      simp [GoMap.setEntries, List.lookup, h, hb]
  | cons e es ih =>
    obtain ⟨k1, x1⟩ := e
    by_cases h1 : k1 = k
    · subst h1
      by_cases h : k' = k1
      · simp [GoMap.setEntries, List.lookup, h]
      · have hb : (k' == k1) = false := by simpa using h
        simp [GoMap.setEntries, List.lookup, h, hb]
    · by_cases h2 : k' = k1
      · subst h2
        simp [GoMap.setEntries, List.lookup, h1]
      · have hb : (k' == k1) = false := by simpa using h2
        simp only [GoMap.setEntries, h1, if_false, List.lookup, hb]
        exact ih

theorem mem_keys_setEntries (k x k' : GoString) (es : List (GoString × GoString)) :
    k' ∈ (GoMap.setEntries k x es).map Prod.fst ↔ k' = k ∨ k' ∈ es.map Prod.fst := by
  rw [← lookup_isSome_iff, ← lookup_isSome_iff, lookup_setEntries]
  by_cases h : k' = k
  · simp [h]
  · simp [h]

theorem nodup_setEntries (k x : GoString) {es : List (GoString × GoString)}
    (h : (es.map Prod.fst).Nodup) : ((GoMap.setEntries k x es).map Prod.fst).Nodup := by
  induction es with
  | nil => simp [GoMap.setEntries]
  | cons e es ih =>
    obtain ⟨k1, x1⟩ := e
    rw [List.map_cons, List.nodup_cons] at h
    by_cases h1 : k1 = k
    · subst h1
      simp only [GoMap.setEntries, if_true, List.map_cons, List.nodup_cons]
      exact h
    · simp only [GoMap.setEntries, h1, if_false, List.map_cons, List.nodup_cons]
      refine ⟨?_, ih h.2⟩
      rw [mem_keys_setEntries]
      rintro (h2 | h2)
      · exact h1 h2
      · exact h.1 h2

theorem GoMap.lookup_set (m : GoMap) (k x k' : GoString) :
    (m.set k x).lookup k' = if k' = k then some x else m.lookup k' :=
  lookup_setEntries k x k' m.entries

theorem GoMap.WF_set {m : GoMap} (h : m.WF) (k x : GoString) : (m.set k x).WF :=
  nodup_setEntries k x h

theorem GoMap.contains_iff (m : GoMap) (k : GoString) : m.contains k = true ↔ k ∈ m.keys :=
  lookup_isSome_iff m.entries k

/-! ## Hexadecimal rendering -/

set_option maxRecDepth 100000 in
theorem sprintfHex_byte (c : Byte) :
    [ldigits.getD (c.val >>> 4) 0, ldigits.getD (c.val &&& 0xF) 0]
      = [hexDigit (c.val / 16), hexDigit (c.val % 16)] := by
  revert c
  decide

theorem sprintfHex_eq_lowerHex (b : List Byte) : sprintfHex b = lowerHex b := by
  unfold sprintfHex lowerHex
  congr 1
  funext c
  exact sprintfHex_byte c

/-! ## The token generator -/

theorem generateToken_eq (v : GoMap) :
    generateToken v = sprintfHex (sum256 ((sortStrings v.keys).flatMap v.get)) := by
  simp [generateToken, tokenInput_eq]

theorem keys_pairwise_of_ascending {es : List (GoString × GoString)} (h : AscendingByKey es) :
    (es.map Prod.fst).Pairwise bytewiseLt :=
  List.pairwise_map.mpr h

theorem nodup_of_pairwise_bytewiseLt {x : List GoString} (h : x.Pairwise bytewiseLt) :
    x.Nodup := by
  refine List.Pairwise.imp ?_ h
  intro a b hab hEq
  subst hEq
  exact bytewiseLt_irrefl a hab

theorem tokenInput_of_ascending (v : GoMap) (es : List (GoString × GoString))
    (hp : es.Perm v.entries) (hs : AscendingByKey es) :
    tokenInput v = es.flatMap Prod.snd := by
  have hk : (es.map Prod.fst).Perm v.keys := hp.map Prod.fst
  have hsorted := keys_pairwise_of_ascending hs
  have hv : v.WF := (hk.nodup_iff).mp (nodup_of_pairwise_bytewiseLt hsorted)
  rw [tokenInput_eq, ← sortStrings_eq_of_perm hk, sortStrings_eq_self hsorted]
  exact flatMap_get_entries hv es (fun e he => hp.subset he)

theorem exists_ascending (v : GoMap) (hv : v.WF) :
    ∃ es : List (GoString × GoString), es.Perm v.entries ∧ AscendingByKey es := by
  refine ⟨(sortStrings v.keys).map (fun k => (k, v.get k)), ?_, ?_⟩
  · have h1 : ((sortStrings v.keys).map (fun k => (k, v.get k))).Perm
        (v.keys.map (fun k => (k, v.get k))) := (sortStrings_perm v.keys).map _
    have h2 : v.keys.map (fun k => (k, v.get k)) = v.entries := by
      unfold GoMap.keys
      rw [List.map_map]
      conv_rhs => rw [← List.map_id v.entries]
      refine List.map_congr_left ?_
      rintro ⟨k, x⟩ he
      simp [GoMap.get_of_mem hv he]
    rw [h2] at h1
    exact h1
  · unfold AscendingByKey
    rw [List.pairwise_map]
    exact sortStrings_strict hv

/-- C1: for a well-formed mapping, the entries can be arranged in ascending
byte-wise lexicographic order of their keys, and for every such arrangement the
token is the lowercase hexadecimal rendering of the SHA-256 digest of the values
concatenated in that order, without separators. -/
theorem generateToken_spec (v : GoMap) (hv : v.WF) :
    (∃ es : List (GoString × GoString), es.Perm v.entries ∧ AscendingByKey es) ∧
    ∀ es : List (GoString × GoString), es.Perm v.entries → AscendingByKey es →
      generateToken v = lowerHex (sum256 (es.flatMap Prod.snd)) := by
  refine ⟨exists_ascending v hv, ?_⟩
  intro es hp hs
  rw [generateToken, tokenInput_of_ascending v es hp hs, sprintfHex_eq_lowerHex]

theorem keys_perm_of_lookup_eq {m₁ m₂ : GoMap} (h₁ : m₁.WF) (h₂ : m₂.WF)
    (h : ∀ k, m₁.lookup k = m₂.lookup k) : m₁.keys.Perm m₂.keys := by
  refine (List.perm_ext_iff_of_nodup h₁ h₂).mpr ?_
  intro k
  unfold GoMap.keys
  rw [← lookup_isSome_iff, ← lookup_isSome_iff]
  have := h k
  unfold GoMap.lookup at this
  rw [this]

theorem generateToken_congr_lookup (m₁ m₂ : GoMap) (h₁ : m₁.WF) (h₂ : m₂.WF)
    (h : ∀ k, m₁.lookup k = m₂.lookup k) : generateToken m₁ = generateToken m₂ := by
  have hget : m₁.get = m₂.get := by
    funext k
    simp [GoMap.get, h k]
  rw [generateToken_eq, generateToken_eq, hget,
    sortStrings_eq_of_perm (keys_perm_of_lookup_eq h₁ h₂ h)]

/-- C4: two well-formed presentations of the same mapping (each key is present
in one exactly when it is present in the other, with the same value), whatever
the order in which their entries are enumerated or were inserted, get the
identical token. -/
theorem generateToken_presentation (m₁ m₂ : GoMap) (h₁ : m₁.WF) (h₂ : m₂.WF)
    (h : ∀ k, m₁.lookup k = m₂.lookup k) : generateToken m₁ = generateToken m₂ :=
  generateToken_congr_lookup m₁ m₂ h₁ h₂ h

theorem sort_getState_keys :
    sortStrings [str "IP", str "PaymentId", str "TerminalKey", str "Password"]
      = [str "IP", str "Password", str "PaymentId", str "TerminalKey"] := by
  decide

theorem getState_fields (c : client) (r : GetStateRequest) :
    (r.GetValuesForToken.set (str "TerminalKey") c.terminalKey).set (str "Password") c.password
      = ⟨[(str "IP", r.ClientIP), (str "PaymentId", r.PaymentID),
          (str "TerminalKey", c.terminalKey), (str "Password", c.password)]⟩ := by
  rfl

theorem tokenInput_getState (c : client) (r : GetStateRequest) :
    tokenInput ((r.GetValuesForToken.set (str "TerminalKey") c.terminalKey).set
      (str "Password") c.password)
      = r.ClientIP ++ c.password ++ r.PaymentID ++ c.terminalKey := by
  rw [getState_fields, tokenInput_eq]
  simp only [GoMap.keys, List.map_cons, List.map_nil, sort_getState_keys]
  generalize hm : (⟨[(str "IP", r.ClientIP), (str "PaymentId", r.PaymentID),
    (str "TerminalKey", c.terminalKey), (str "Password", c.password)]⟩ : GoMap) = m
  have h1 : m.get (str "IP") = r.ClientIP := by subst hm; rfl
  have h2 : m.get (str "Password") = c.password := by subst hm; rfl
  have h3 : m.get (str "PaymentId") = r.PaymentID := by subst hm; rfl
  have h4 : m.get (str "TerminalKey") = c.terminalKey := by subst hm; rfl
  simp only [List.flatMap_cons, List.flatMap_nil, h1, h2, h3, h4, List.append_nil,
    List.append_assoc]

theorem sort_cancel_keys :
    sortStrings [str "PaymentId", str "IP", str "Amount", str "TerminalKey", str "Password"]
      = [str "Amount", str "IP", str "Password", str "PaymentId", str "TerminalKey"] := by
  decide

theorem sort_cancel_keys_zero :
    sortStrings [str "PaymentId", str "IP", str "TerminalKey", str "Password"]
      = [str "IP", str "Password", str "PaymentId", str "TerminalKey"] := by
  decide

theorem cancel_values_zero {Receipt : Type} (q : CancelRequest Receipt) (h : q.Amount = 0) :
    q.GetValuesForToken = ⟨[(str "PaymentId", q.PaymentID), (str "IP", q.ClientIP)]⟩ := by
  simp [CancelRequest.GetValuesForToken, serializeUintToMapIfNonEmpty, h]

theorem cancel_values_nonzero {Receipt : Type} (q : CancelRequest Receipt) (h : q.Amount ≠ 0) :
    q.GetValuesForToken = ⟨[(str "PaymentId", q.PaymentID), (str "IP", q.ClientIP),
      (str "Amount", decimal q.Amount)]⟩ := by
  simp only [CancelRequest.GetValuesForToken, serializeUintToMapIfNonEmpty, h, ne_eq,
    not_false_eq_true, if_true]
  rfl

theorem getState_WF (r : GetStateRequest) : r.GetValuesForToken.WF := by
  show ([str "IP", str "PaymentId"] : List GoString).Nodup
  decide

theorem cancel_WF {Receipt : Type} (q : CancelRequest Receipt) : q.GetValuesForToken.WF := by
  by_cases h : q.Amount = 0
  · rw [cancel_values_zero q h]
    show ([str "PaymentId", str "IP"] : List GoString).Nodup
    decide
  · rw [cancel_values_nonzero q h]
    show ([str "PaymentId", str "IP", str "Amount"] : List GoString).Nodup
    decide

theorem extendsWithCredentials_set (base : GoMap) (hb : base.WF) (c : client) :
    ExtendsWithCredentials
      ((base.set (str "TerminalKey") c.terminalKey).set (str "Password") c.password) base c := by
  refine ⟨GoMap.WF_set (GoMap.WF_set hb _ _) _ _, ?_⟩
  intro k
  rw [GoMap.lookup_set, GoMap.lookup_set]

theorem generateToken_of_extends {F G base : GoMap} {c : client}
    (hF : ExtendsWithCredentials F base c) (hG : ExtendsWithCredentials G base c) :
    generateToken G = generateToken F :=
  generateToken_congr_lookup G F hG.1 hF.1 (fun k => by rw [hG.2 k, hF.2 k])

/-- C3: after `secureRequest` on a state-query or a cancellation request, the
terminal key of the request is that of the client, and its token is
`generateToken F` for a mapping `F` that is the request's `GetValuesForToken()`
extended with `"TerminalKey"` and `"Password"` mapped to the credentials;
recomputing `generateToken` over any mapping with the same field values gives a
string equal to the attached token. -/
theorem secureRequest_token {Receipt : Type} (c : client) (r : GetStateRequest)
    (q : CancelRequest Receipt) :
    ((c.secureRequest r).TerminalKey = c.terminalKey ∧
      ∃ F : GoMap, ExtendsWithCredentials F r.GetValuesForToken c ∧
        (c.secureRequest r).Token = generateToken F ∧
        ∀ G : GoMap, ExtendsWithCredentials G r.GetValuesForToken c →
          generateToken G = (c.secureRequest r).Token) ∧
    ((c.secureRequest q).TerminalKey = c.terminalKey ∧
      ∃ F : GoMap, ExtendsWithCredentials F q.GetValuesForToken c ∧
        (c.secureRequest q).Token = generateToken F ∧
        ∀ G : GoMap, ExtendsWithCredentials G q.GetValuesForToken c →
          generateToken G = (c.secureRequest q).Token) := by
  refine ⟨⟨rfl, _, extendsWithCredentials_set _ (getState_WF r) c, rfl, ?_⟩,
    ⟨rfl, _, extendsWithCredentials_set _ (cancel_WF q) c, rfl, ?_⟩⟩
  · intro G hG
    exact generateToken_of_extends (extendsWithCredentials_set _ (getState_WF r) c) hG
  · intro G hG
    exact generateToken_of_extends (extendsWithCredentials_set _ (cancel_WF q) c) hG

theorem cancel_values_facts {Receipt : Type} (q : CancelRequest Receipt) :
    q.GetValuesForToken.lookup (str "PaymentId") = some q.PaymentID ∧
    q.GetValuesForToken.lookup (str "IP") = some q.ClientIP ∧
    (q.GetValuesForToken.contains (str "Amount") = true ↔ q.Amount ≠ 0) ∧
    q.GetValuesForToken.lookup (str "Amount")
      = (if q.Amount = 0 then none else some (decimal q.Amount)) ∧
    (∀ k, q.GetValuesForToken.contains k = true →
      k = str "PaymentId" ∨ k = str "IP" ∨ k = str "Amount") ∧
    q.GetValuesForToken.WF := by
  have hwf := cancel_WF q
  by_cases h : q.Amount = 0
  · rw [cancel_values_zero q h] at hwf ⊢
    refine ⟨rfl, rfl, ?_, ?_, ?_, hwf⟩
    · simp only [h, ne_eq, not_true_eq_false, iff_false]
      exact fun hc => Bool.false_ne_true hc
    · simp only [h, if_true]
      rfl
    · intro k hk
      rw [GoMap.contains_iff] at hk
      simp only [GoMap.keys, List.map_cons, List.map_nil, List.mem_cons, List.mem_singleton,
        List.not_mem_nil, or_false] at hk
      rcases hk with hk | hk
      · exact Or.inl hk
      · exact Or.inr (Or.inl hk)
  · rw [cancel_values_nonzero q h] at hwf ⊢
    refine ⟨rfl, rfl, ?_, ?_, ?_, hwf⟩
    · simp only [h, ne_eq, not_false_eq_true, iff_true]
      rfl
    · simp only [h, if_false]
      rfl
    · intro k hk
      rw [GoMap.contains_iff] at hk
      simp only [GoMap.keys, List.map_cons, List.map_nil, List.mem_cons, List.mem_singleton,
        List.not_mem_nil, or_false] at hk
      rcases hk with hk | hk | hk
      · exact Or.inl hk
      · exact Or.inr (Or.inl hk)
      · exact Or.inr (Or.inr hk)

/-- C5: the mapping of a cancellation request has `"PaymentId"` mapped to
`PaymentID` and `"IP"` mapped to `ClientIP`; it has the key `"Amount"` exactly
when `Amount` is non-zero, then mapped to the decimal rendering of `Amount`, and
no entry at all for `"Amount"` when `Amount` is 0; it has no other key. -/
theorem cancel_valuesForToken {Receipt : Type} (q : CancelRequest Receipt) :
    q.GetValuesForToken.lookup (str "PaymentId") = some q.PaymentID ∧
    q.GetValuesForToken.lookup (str "IP") = some q.ClientIP ∧
    (q.GetValuesForToken.contains (str "Amount") = true ↔ q.Amount ≠ 0) ∧
    q.GetValuesForToken.lookup (str "Amount")
      = (if q.Amount = 0 then none else some (decimal q.Amount)) ∧
    (∀ k, q.GetValuesForToken.contains k = true →
      k = str "PaymentId" ∨ k = str "IP" ∨ k = str "Amount") ∧
    q.GetValuesForToken.WF :=
  cancel_values_facts q

/-- C6: the mapping of a state-query request has `"IP"` mapped to `ClientIP`
and `"PaymentId"` mapped to `PaymentID`, every key of it is one of these two, and
it is the same for two requests that agree on `ClientIP` and `PaymentID`: no
other field of the request takes part in the token. -/
theorem getState_valuesForToken (r : GetStateRequest) :
    r.GetValuesForToken.lookup (str "IP") = some r.ClientIP ∧
    r.GetValuesForToken.lookup (str "PaymentId") = some r.PaymentID ∧
    (∀ k, r.GetValuesForToken.contains k = true → k = str "IP" ∨ k = str "PaymentId") ∧
    (∀ r' : GetStateRequest, r'.ClientIP = r.ClientIP → r'.PaymentID = r.PaymentID →
      r'.GetValuesForToken = r.GetValuesForToken ∧
      ∀ c : client, (c.secureRequest r').Token = (c.secureRequest r).Token) := by
  refine ⟨rfl, rfl, ?_, ?_⟩
  · intro k hk
    rw [GoMap.contains_iff] at hk
    simp only [GoMap.keys, GetStateRequest.GetValuesForToken, List.map_cons, List.map_nil,
      List.mem_cons, List.mem_singleton, List.not_mem_nil, or_false] at hk
    exact hk
  · intro r' h1 h2
    have h3 : r'.GetValuesForToken = r.GetValuesForToken := by
      simp [GetStateRequest.GetValuesForToken, h1, h2]
    refine ⟨h3, ?_⟩
    intro c
    show generateToken ((r'.GetValuesForToken.set _ _).set _ _)
      = generateToken ((r.GetValuesForToken.set _ _).set _ _)
    rw [h3]

/-! ## The concrete scenario -/

set_option maxRecDepth 100000 in
/-- C2, as stated, fails: for the field mapping of the scenario the sorted keys
are not `[IP, PaymentId, Password, TerminalKey]`, the hashed bytes are not
`"12345secretpwdTestTerm"`, and the token is not the digest of that string. -/
theorem scenario_claimed_order_fails :
    sortStrings scenarioFields.keys
      ≠ [str "IP", str "PaymentId", str "Password", str "TerminalKey"] ∧
    tokenInput scenarioFields ≠ str "12345secretpwdTestTerm" ∧
    generateToken scenarioFields ≠ lowerHex (sum256 (str "12345secretpwdTestTerm")) := by
  decide

set_option maxRecDepth 100000 in
/-- C2, amended: for the field mapping of the scenario, `generateToken` sorts the
keys as `[IP, Password, PaymentId, TerminalKey]`, hashes
`"" + "secretpwd" + "12345" + "TestTerm"`, that is `"secretpwd12345TestTerm"`, and
returns the lowercase hex SHA-256 digest of exactly that string. -/
theorem scenario_token :
    sortStrings scenarioFields.keys
      = [str "IP", str "Password", str "PaymentId", str "TerminalKey"] ∧
    tokenInput scenarioFields
      = str "" ++ str "secretpwd" ++ str "12345" ++ str "TestTerm" ∧
    tokenInput scenarioFields = str "secretpwd12345TestTerm" ∧
    generateToken scenarioFields = lowerHex (sum256 (str "secretpwd12345TestTerm")) ∧
    generateToken scenarioFields
      = str "47c47e9be79b14c72594e8d9139750d3065ee8d573adf4c9707869c6ea3faffa" := by
  decide

/-! ## The zero-value omission rule -/

/-- C7, as stated, fails: a state query and a cancellation whose `ClientIP` is
`""` still have the key `"IP"` in their mapping, with the empty string. -/
theorem empty_ClientIP_is_present :
    stateQueryNoIP.ClientIP = [] ∧
    stateQueryNoIP.GetValuesForToken.contains (str "IP") = true ∧
    stateQueryNoIP.GetValuesForToken.lookup (str "IP") = some [] ∧
    cancelNoIP.ClientIP = [] ∧
    cancelNoIP.GetValuesForToken.contains (str "IP") = true ∧
    cancelNoIP.GetValuesForToken.lookup (str "IP") = some [] := by
  decide

theorem sort_state_keys :
    sortStrings [str "IP", str "PaymentId"] = [str "IP", str "PaymentId"] := by
  decide

theorem sort_cancel_base_keys :
    sortStrings [str "PaymentId", str "IP"] = [str "IP", str "PaymentId"] := by
  decide

theorem sort_cancel_amount_keys :
    sortStrings [str "PaymentId", str "IP", str "Amount"]
      = [str "Amount", str "IP", str "PaymentId"] := by
  decide

theorem tokenInput_state_values (r : GetStateRequest) :
    tokenInput r.GetValuesForToken = r.ClientIP ++ r.PaymentID := by
  rw [tokenInput_eq]
  simp only [GetStateRequest.GetValuesForToken, GoMap.keys, List.map_cons, List.map_nil,
    sort_state_keys]
  generalize hm : (⟨[(str "IP", r.ClientIP), (str "PaymentId", r.PaymentID)]⟩ : GoMap) = m
  have h1 : m.get (str "IP") = r.ClientIP := by subst hm; rfl
  have h2 : m.get (str "PaymentId") = r.PaymentID := by subst hm; rfl
  simp only [List.flatMap_cons, List.flatMap_nil, h1, h2, List.append_nil]

theorem tokenInput_cancel_values {Receipt : Type} (q : CancelRequest Receipt) :
    tokenInput q.GetValuesForToken
      = (if q.Amount = 0 then [] else decimal q.Amount) ++ q.ClientIP ++ q.PaymentID := by
  rw [tokenInput_eq]
  by_cases h : q.Amount = 0
  · rw [cancel_values_zero q h]
    simp only [GoMap.keys, List.map_cons, List.map_nil, sort_cancel_base_keys, h, if_true]
    generalize hm : (⟨[(str "PaymentId", q.PaymentID), (str "IP", q.ClientIP)]⟩ : GoMap) = m
    have h1 : m.get (str "IP") = q.ClientIP := by subst hm; rfl
    have h2 : m.get (str "PaymentId") = q.PaymentID := by subst hm; rfl
    simp only [List.flatMap_cons, List.flatMap_nil, h1, h2, List.append_nil, List.nil_append]
  · rw [cancel_values_nonzero q h]
    simp only [GoMap.keys, List.map_cons, List.map_nil, sort_cancel_amount_keys, h, if_false]
    generalize hm : (⟨[(str "PaymentId", q.PaymentID), (str "IP", q.ClientIP),
      (str "Amount", decimal q.Amount)]⟩ : GoMap) = m
    have h0 : m.get (str "Amount") = decimal q.Amount := by subst hm; rfl
    have h1 : m.get (str "IP") = q.ClientIP := by subst hm; rfl
    have h2 : m.get (str "PaymentId") = q.PaymentID := by subst hm; rfl
    simp only [List.flatMap_cons, List.flatMap_nil, h0, h1, h2, List.append_nil,
      List.append_assoc]

/-- C7, amended: the mapping of every state query and of every cancellation has
the key `"IP"`, mapped to `ClientIP`, also when `ClientIP` is `""` (the entry is
then the empty string, which adds no byte to the hashed concatenation); the only
field omitted at its zero value is the numeric `Amount` of a cancellation. -/
theorem clientIP_always_present {Receipt : Type} (r : GetStateRequest)
    (q : CancelRequest Receipt) :
    r.GetValuesForToken.lookup (str "IP") = some r.ClientIP ∧
    q.GetValuesForToken.lookup (str "IP") = some q.ClientIP ∧
    tokenInput r.GetValuesForToken = r.ClientIP ++ r.PaymentID ∧
    tokenInput q.GetValuesForToken
      = (if q.Amount = 0 then [] else decimal q.Amount) ++ q.ClientIP ++ q.PaymentID ∧
    (q.GetValuesForToken.contains (str "Amount") = true ↔ q.Amount ≠ 0) :=
  ⟨rfl, (cancel_values_facts q).2.1, tokenInput_state_values r,
    tokenInput_cancel_values q, (cancel_values_facts q).2.2.1⟩

/-! ## The pair returned by `Cancel` and `GetState` -/

/-- C9, as stated, fails: when the transport and the decoding succeed and the
decoded envelope reports a failure, `Cancel` and `GetState` return the response
and the error, both non-nil. -/
theorem failed_envelope_returns_both :
    scenarioClient.Cancel (answering failedCancel) cancelNoIP
      = some (some failedCancel, some (GoError.api (str "1") (str "declined"))) ∧
    scenarioClient.GetState (answering failedState) stateQueryNoIP
      = some (some failedState, some (GoError.api (str "1") (str "declined"))) :=
  ⟨rfl, rfl⟩

theorem cancel_shape {Receipt : Type} (c : client)
    (io : Collaborators (CancelRequest Receipt) CancelResponse) (q : CancelRequest Receipt) :
    (c.Cancel io q = none ↔ c.PostRequest io (str "/Cancel") q = (none, none)) ∧
    ∀ res err, c.Cancel io q = some (res, err) →
      (res = none ∧ ∃ e, err = some e) ∨
      (∃ v, res = some v ∧ err = v.toBaseResponse.Error) := by
  unfold client.Cancel
  rcases hP : c.PostRequest io (str "/Cancel") q with ⟨resp, err⟩
  cases err with
  | some e => simp
  | none =>
    cases resp with
    | none => simp
    | some response =>
      rcases hD : c.decodeResponse io response with ⟨v, e⟩
      cases e with
      | some e => simp [hD]
      | none => simp [hD]

theorem getState_shape (c : client)
    (io : Collaborators GetStateRequest GetStateResponse) (r : GetStateRequest) :
    (c.GetState io r = none ↔ c.PostRequest io (str "/GetState") r = (none, none)) ∧
    ∀ res err, c.GetState io r = some (res, err) →
      (res = none ∧ ∃ e, err = some e) ∨
      (∃ v, res = some v ∧ err = v.toBaseResponse.Error) := by
  unfold client.GetState
  rcases hP : c.PostRequest io (str "/GetState") r with ⟨resp, err⟩
  cases err with
  | some e => simp
  | none =>
    cases resp with
    | none => simp
    | some response =>
      rcases hD : c.decodeResponse io response with ⟨v, e⟩
      cases e with
      | some e => simp [hD]
      | none => simp [hD]

theorem postRequest_exact {ρ σ : Type} [RequestInterface ρ] (c : client)
    (io : Collaborators ρ σ) (url : GoString) (request : ρ) :
    (∀ e, (io.marshal (c.secureRequest request)).2 = some e →
      c.PostRequest io url request = (none, some e)) ∧
    ((io.marshal (c.secureRequest request)).2 = none →
      c.PostRequest io url request
        = io.post (c.baseURL ++ url) (io.marshal (c.secureRequest request)).1) := by
  have hdef : c.PostRequest io url request
      = (match (io.marshal (c.secureRequest request)).2 with
        | some e => (none, some e)
        | none => io.post (c.baseURL ++ url) (io.marshal (c.secureRequest request)).1) := rfl
  rw [hdef]
  constructor
  · intro e h
    rw [h]
  · intro h
    rw [h]

theorem cancel_exact {Receipt : Type} (c : client)
    (io : Collaborators (CancelRequest Receipt) CancelResponse) (q : CancelRequest Receipt) :
    (∀ resp e, c.PostRequest io (str "/Cancel") q = (resp, some e) →
      c.Cancel io q = some (none, some e)) ∧
    (∀ response e, c.PostRequest io (str "/Cancel") q = (some response, none) →
      (io.decode response.Body).2 = some e → c.Cancel io q = some (none, some e)) ∧
    (∀ response, c.PostRequest io (str "/Cancel") q = (some response, none) →
      (io.decode response.Body).2 = none →
      c.Cancel io q = some (some (io.decode response.Body).1,
        (io.decode response.Body).1.toBaseResponse.Error)) := by
  unfold client.Cancel client.decodeResponse
  refine ⟨?_, ?_, ?_⟩
  · intro resp e hP
    simp [hP]
  · intro response e hP hD
    rcases hD2 : io.decode response.Body with ⟨v, e2⟩
    rw [hD2] at hD
    simp only at hD
    subst hD
    simp [hP, hD2]
  · intro response hP hD
    rcases hD2 : io.decode response.Body with ⟨v, e2⟩
    rw [hD2] at hD
    simp only at hD
    subst hD
    simp [hP, hD2]

theorem getState_exact (c : client)
    (io : Collaborators GetStateRequest GetStateResponse) (r : GetStateRequest) :
    (∀ resp e, c.PostRequest io (str "/GetState") r = (resp, some e) →
      c.GetState io r = some (none, some e)) ∧
    (∀ response e, c.PostRequest io (str "/GetState") r = (some response, none) →
      (io.decode response.Body).2 = some e → c.GetState io r = some (none, some e)) ∧
    (∀ response, c.PostRequest io (str "/GetState") r = (some response, none) →
      (io.decode response.Body).2 = none →
      c.GetState io r = some (some (io.decode response.Body).1,
        (io.decode response.Body).1.toBaseResponse.Error)) := by
  unfold client.GetState client.decodeResponse
  refine ⟨?_, ?_, ?_⟩
  · intro resp e hP
    simp [hP]
  · intro response e hP hD
    rcases hD2 : io.decode response.Body with ⟨v, e2⟩
    rw [hD2] at hD
    simp only at hD
    subst hD
    simp [hP, hD2]
  · intro response hP hD
    rcases hD2 : io.decode response.Body with ⟨v, e2⟩
    rw [hD2] at hD
    simp only at hD
    subst hD
    simp [hP, hD2]

/-- C9, amended: for every outcome of the collaborators, `PostRequest` returns
the error of `json.Marshal` with a nil response, and otherwise what `http.Post`
returns. `Cancel` and `GetState` return a nil response with the error `e` when
`PostRequest` returns the error `e`, and when it returns a response without an
error and the decoding returns the error `e`; when the decoding succeeds they
return the decoded response `res`, non-nil, together with `res.Error()`. So the
pair is never nil twice, exactly one component is non-nil when the envelope's
`Error()` is nil, and both are when it is non-nil. They return no pair only when
`PostRequest` hands back a nil response without an error. -/
theorem response_error_pair {Receipt : Type} (c : client)
    (io : Collaborators (CancelRequest Receipt) CancelResponse) (q : CancelRequest Receipt)
    (io' : Collaborators GetStateRequest GetStateResponse) (r : GetStateRequest) :
    (((∀ e, (io.marshal (c.secureRequest q)).2 = some e →
          c.PostRequest io (str "/Cancel") q = (none, some e)) ∧
        ((io.marshal (c.secureRequest q)).2 = none →
          c.PostRequest io (str "/Cancel") q
            = io.post (c.baseURL ++ str "/Cancel") (io.marshal (c.secureRequest q)).1)) ∧
      ((∀ resp e, c.PostRequest io (str "/Cancel") q = (resp, some e) →
          c.Cancel io q = some (none, some e)) ∧
        (∀ response e, c.PostRequest io (str "/Cancel") q = (some response, none) →
          (io.decode response.Body).2 = some e → c.Cancel io q = some (none, some e)) ∧
        (∀ response, c.PostRequest io (str "/Cancel") q = (some response, none) →
          (io.decode response.Body).2 = none →
          c.Cancel io q = some (some (io.decode response.Body).1,
            (io.decode response.Body).1.toBaseResponse.Error))) ∧
      (c.Cancel io q = none ↔ c.PostRequest io (str "/Cancel") q = (none, none)) ∧
      ∀ res err, c.Cancel io q = some (res, err) →
        (res = none ∧ ∃ e, err = some e) ∨
        (∃ v, res = some v ∧ err = v.toBaseResponse.Error)) ∧
    (((∀ e, (io'.marshal (c.secureRequest r)).2 = some e →
          c.PostRequest io' (str "/GetState") r = (none, some e)) ∧
        ((io'.marshal (c.secureRequest r)).2 = none →
          c.PostRequest io' (str "/GetState") r
            = io'.post (c.baseURL ++ str "/GetState") (io'.marshal (c.secureRequest r)).1)) ∧
      ((∀ resp e, c.PostRequest io' (str "/GetState") r = (resp, some e) →
          c.GetState io' r = some (none, some e)) ∧
        (∀ response e, c.PostRequest io' (str "/GetState") r = (some response, none) →
          (io'.decode response.Body).2 = some e → c.GetState io' r = some (none, some e)) ∧
        (∀ response, c.PostRequest io' (str "/GetState") r = (some response, none) →
          (io'.decode response.Body).2 = none →
          c.GetState io' r = some (some (io'.decode response.Body).1,
            (io'.decode response.Body).1.toBaseResponse.Error))) ∧
      (c.GetState io' r = none ↔ c.PostRequest io' (str "/GetState") r = (none, none)) ∧
      ∀ res err, c.GetState io' r = some (res, err) →
        (res = none ∧ ∃ e, err = some e) ∨
        (∃ v, res = some v ∧ err = v.toBaseResponse.Error)) :=
  ⟨⟨postRequest_exact c io _ q, cancel_exact c io q, cancel_shape c io q⟩,
    ⟨postRequest_exact c io' _ r, getState_exact c io' r, getState_shape c io' r⟩⟩

/-! ## Tokens that coincide -/

theorem secureRequest_state_token (c : client) (r : GetStateRequest) :
    (c.secureRequest r).Token
      = sprintfHex (sum256 (r.ClientIP ++ c.password ++ r.PaymentID ++ c.terminalKey)) := by
  rw [← tokenInput_getState c r]
  rfl

set_option maxRecDepth 100000 in
/-- C10, as stated, fails: under the credentials of the scenario the state
queries with (`ClientIP` `"1"`, `PaymentID` `"23"`) and (`ClientIP` `"12"`,
`PaymentID` `"3"`) get different tokens, because `"Password"` sorts between
`"IP"` and `"PaymentId"`. -/
theorem claimed_collision_fails :
    (scenarioClient.secureRequest stateQueryA).Token
      ≠ (scenarioClient.secureRequest stateQueryB).Token := by
  decide

/-- C10, amended: the token does not determine the signed field values. For
every credentials the state queries (`ClientIP` `""`, `PaymentID`
`"2" + password`) and (`ClientIP` `password + "2"`, `PaymentID` `""`) differ and
get the same token; the queries (`"1"`, `"23"`) and (`"12"`, `"3"`) get the same
token when `password + "2" = "2" + password`; and `generateToken F =
generateToken G` whenever the sorted-key concatenations of the values of `F` and
`G` are equal. -/
theorem token_collisions (c : client) (F G : GoMap) :
    ((collidingA c).PaymentID, (collidingA c).ClientIP)
      ≠ ((collidingB c).PaymentID, (collidingB c).ClientIP) ∧
    (c.secureRequest (collidingA c)).Token = (c.secureRequest (collidingB c)).Token ∧
    (c.password ++ str "2" = str "2" ++ c.password →
      (c.secureRequest stateQueryA).Token = (c.secureRequest stateQueryB).Token) ∧
    (tokenInput F = tokenInput G → generateToken F = generateToken G) := by
  refine ⟨?_, ?_, ?_, ?_⟩
  · intro h
    have h2 : ([] : GoString) = c.password ++ str "2" := congrArg Prod.snd h
    have h3 := congrArg List.length h2
    have h4 : (str "2").length = 1 := by decide
    simp only [List.length_nil, List.length_append, h4] at h3
    omega
  · rw [secureRequest_state_token, secureRequest_state_token]
    simp only [collidingA, collidingB, List.nil_append, List.append_nil, List.append_assoc]
  · intro h
    rw [secureRequest_state_token, secureRequest_state_token]
    have e1 : str "23" = str "2" ++ str "3" := by decide
    have e2 : str "12" = str "1" ++ str "2" := by decide
    have e3 : stateQueryA.ClientIP ++ c.password ++ stateQueryA.PaymentID ++ c.terminalKey
        = stateQueryB.ClientIP ++ c.password ++ stateQueryB.PaymentID ++ c.terminalKey := by
      show str "1" ++ c.password ++ str "23" ++ c.terminalKey
        = str "12" ++ c.password ++ str "3" ++ c.terminalKey
      calc str "1" ++ c.password ++ str "23" ++ c.terminalKey
          = str "1" ++ ((c.password ++ str "2") ++ (str "3" ++ c.terminalKey)) := by
            rw [e1]; simp only [List.append_assoc]
        _ = str "1" ++ ((str "2" ++ c.password) ++ (str "3" ++ c.terminalKey)) := by rw [h]
        _ = str "12" ++ c.password ++ str "3" ++ c.terminalKey := by
            rw [e2]; simp only [List.append_assoc]
    rw [e3]
  · intro h
    simp only [generateToken, h]

/-! ## Changing one value -/

theorem length_beBytes (n x : Nat) : (beBytes n x).length = n := by
  induction n with
  | zero => rfl
  | succ n ih => simp [beBytes, ih]

theorem length_sum256 (data : List Byte) : (sum256 data).length = 32 := by
  simp [sum256, length_beBytes]

theorem length_sprintfHex (b : List Byte) : (sprintfHex b).length = 2 * b.length := by
  induction b with
  | nil => rfl
  | cons c cs ih =>
    have h : sprintfHex (c :: cs)
        = [ldigits.getD (c.val >>> 4) 0, ldigits.getD (c.val &&& 0xF) 0] ++ sprintfHex cs := by
      simp [sprintfHex]
    rw [h, List.length_append, ih]
    simp only [List.length_cons, List.length_nil]
    omega

theorem length_generateToken (v : GoMap) : (generateToken v).length = 64 := by
  simp [generateToken, length_sprintfHex, length_sum256]

set_option maxRecDepth 100000 in
theorem readHex_byte (c : Byte) :
    (Fin.ofNat (16 * hexValue (hexDigit (c.val / 16)) + hexValue (hexDigit (c.val % 16))) : Byte)
      = c := by
  revert c
  decide

theorem readHex_lowerHex (b : List Byte) : readHex (lowerHex b) = b := by
  induction b with
  | nil => rfl
  | cons c cs ih =>
    have h : lowerHex (c :: cs)
        = hexDigit (c.val / 16) :: hexDigit (c.val % 16) :: lowerHex cs := by
      simp [lowerHex]
    rw [h, readHex, ih, readHex_byte]

theorem sprintfHex_injective {a b : List Byte} (h : sprintfHex a = sprintfHex b) : a = b := by
  rw [sprintfHex_eq_lowerHex, sprintfHex_eq_lowerHex] at h
  have := congrArg readHex h
  rwa [readHex_lowerHex, readHex_lowerHex] at this

theorem keys_setEntries_of_mem (k x : GoString) {es : List (GoString × GoString)}
    (h : k ∈ es.map Prod.fst) :
    (GoMap.setEntries k x es).map Prod.fst = es.map Prod.fst := by
  induction es with
  | nil => cases h
  | cons e es ih =>
    obtain ⟨k1, x1⟩ := e
    by_cases h1 : k1 = k
    · subst h1
      simp [GoMap.setEntries]
    · have h2 : k ∈ es.map Prod.fst := by
        rcases List.mem_cons.mp h with h3 | h3
        · exact absurd h3.symm h1
        · exact h3
      simp only [GoMap.setEntries, h1, if_false, List.map_cons, ih h2]

theorem GoMap.get_set (m : GoMap) (k x k' : GoString) :
    (m.set k x).get k' = if k' = k then x else m.get k' := by
  unfold GoMap.get
  rw [GoMap.lookup_set]
  by_cases h : k' = k
  · simp [h]
  · simp [h]

theorem flatMap_ne_of_differ_at {f g : GoString → GoString} {k : GoString}
    (hfg : ∀ a, a ≠ k → f a = g a) (hk : f k ≠ g k) :
    ∀ l : List GoString, l.Nodup → k ∈ l → l.flatMap f ≠ l.flatMap g := by
  intro l
  induction l with
  | nil => intro _ h; cases h
  | cons a l ih =>
    intro hnd hmem heq
    rw [List.nodup_cons] at hnd
    simp only [List.flatMap_cons] at heq
    by_cases ha : a = k
    · subst ha
      have hrest : l.flatMap f = l.flatMap g := by
        have : ∀ b ∈ l, f b = g b := fun b hb => hfg b (fun hbk => hnd.1 (hbk ▸ hb))
        simp only [List.flatMap, List.map_congr_left this]
      rw [hrest] at heq
      exact hk (List.append_cancel_right heq)
    · rw [hfg a ha] at heq
      have hmem2 : k ∈ l := by
        rcases List.mem_cons.mp hmem with h | h
        · exact absurd h.symm ha
        · exact h
      exact ih hnd.2 hmem2 (List.append_cancel_left heq)

theorem tokenInput_set_ne (F : GoMap) (hF : F.WF) (k w : GoString) (hk : k ∈ F.keys)
    (hw : w ≠ F.get k) : tokenInput (F.set k w) ≠ tokenInput F := by
  have hkeys : (F.set k w).keys = F.keys := keys_setEntries_of_mem k w hk
  rw [tokenInput_eq, tokenInput_eq, hkeys]
  refine flatMap_ne_of_differ_at ?_ ?_ _
    (((sortStrings_perm F.keys).nodup_iff).mpr hF)
    (((sortStrings_perm F.keys).mem_iff).mpr hk)
  · intro a ha
    rw [GoMap.get_set, if_neg ha]
  · rw [GoMap.get_set, if_pos rfl]
    exact hw

/-- C8, as stated, fails: not every change of a value changes the digest. The
tokens are strings of 64 bytes, and there are infinitely many values for one and
the same key, so two different values of a one-entry mapping get the same
token. -/
theorem value_change_can_collide :
    ¬ ∀ (F : GoMap), F.WF → ∀ k ∈ F.keys, ∀ w : GoString, w ≠ F.get k →
      generateToken (F.set k w) ≠ generateToken F := by
  intro H
  have hfin : {l : List Byte | l.length = 64}.Finite := List.finite_length_eq Byte 64
  have hmaps : Set.MapsTo (fun a : GoString => generateToken ⟨[(str "PaymentId", a)]⟩)
      Set.univ {l : List Byte | l.length = 64} := fun a _ => length_generateToken _
  obtain ⟨a, -, b, -, hab, heq⟩ := Set.infinite_univ.exists_ne_map_eq_of_mapsTo hmaps hfin
  refine H ⟨[(str "PaymentId", a)]⟩ ?_ (str "PaymentId") ?_ b ?_ ?_
  · show ([str "PaymentId"] : List GoString).Nodup
    simp
  · show str "PaymentId" ∈ [str "PaymentId"]
    simp
  · have hget : (⟨[(str "PaymentId", a)]⟩ : GoMap).get (str "PaymentId") = a := by
      simp [GoMap.get, GoMap.lookup, List.lookup]
    rw [hget]
    exact fun h => hab h.symm
  · have hset : (⟨[(str "PaymentId", a)]⟩ : GoMap).set (str "PaymentId") b
        = ⟨[(str "PaymentId", b)]⟩ := by
      simp [GoMap.set, GoMap.setEntries]
    rw [hset]
    exact heq.symm

/-- C8, amended: for a well-formed mapping `F`, a key `k` of `F` and a string `w`
different from `F[k]`, changing the value for `k` to `w` changes the byte
sequence that is hashed; the token changes exactly when the SHA-256 digests of
the two byte sequences differ. -/
theorem value_change_changes_input (F : GoMap) (hF : F.WF) (k w : GoString)
    (hk : k ∈ F.keys) (hw : w ≠ F.get k) :
    tokenInput (F.set k w) ≠ tokenInput F ∧
    (generateToken (F.set k w) ≠ generateToken F ↔
      sum256 (tokenInput (F.set k w)) ≠ sum256 (tokenInput F)) := by
  refine ⟨tokenInput_set_ne F hF k w hk hw, ?_⟩
  unfold generateToken
  constructor
  · intro h heq
    exact h (by simp only [heq])
  · intro h heq
    exact h (sprintfHex_injective heq)

/-! ## Instances at the concrete scenario -/

set_option maxRecDepth 100000 in
theorem sum256_test_vectors :
    sprintfHex (sum256 (str "abc"))
      = str "ba7816bf8f01cfea414140de5dae2223b00361a396177a9cb410ff61f20015ad" ∧
    sprintfHex (sum256 [])
      = str "e3b0c44298fc1c149afbf4c8996fb92427ae41e4649b934ca495991b7852b855" := by
  decide

theorem decimal_examples :
    decimal 1050 = str "1050" ∧ decimal 7 = str "7" ∧
    decimal 18446744073709551615 = str "18446744073709551615" := by
  decide

theorem lookup_eq_of_perm {es₁ es₂ : List (GoString × GoString)} (hp : es₁.Perm es₂)
    (h₁ : (es₁.map Prod.fst).Nodup) (k : GoString) : es₁.lookup k = es₂.lookup k := by
  have h₂ : (es₂.map Prod.fst).Nodup := ((hp.map Prod.fst).nodup_iff).mp h₁
  by_cases hk : k ∈ es₁.map Prod.fst
  · obtain ⟨e, he, hek⟩ := List.mem_map.mp hk
    obtain ⟨k1, x⟩ := e
    simp only at hek
    subst hek
    rw [lookup_of_mem h₁ he, lookup_of_mem h₂ (hp.subset he)]
  · have hk2 : k ∉ es₂.map Prod.fst := fun h => hk (((hp.map Prod.fst).mem_iff).mpr h)
    rw [lookup_eq_none_of_not_mem hk, lookup_eq_none_of_not_mem hk2]

/-- C1 at the scenario: the entries of the scenario in ascending order of keys
are a rearrangement of the mapping, so the token is the lowercase hexadecimal
SHA-256 digest of their values concatenated in that order. -/
theorem generateToken_spec_witness :
    generateToken scenarioFields
      = lowerHex (sum256 (scenarioSorted.entries.flatMap Prod.snd)) :=
  (generateToken_spec scenarioFields (by decide)).2 scenarioSorted.entries
    (by decide) (by decide)

/-- C4 at the scenario: the mapping in the order of the specification and in
ascending order of keys get the same token. -/
theorem generateToken_presentation_witness :
    generateToken scenarioFields = generateToken scenarioSorted :=
  generateToken_presentation scenarioFields scenarioSorted (by decide) (by decide)
    (fun k => lookup_eq_of_perm (by decide) (by decide) k)

/-- C8, amended, at the scenario: replacing the payment identifier `"12345"` by
`"12346"` changes the hashed bytes. -/
theorem value_change_changes_input_witness :
    tokenInput (scenarioFields.set (str "PaymentId") (str "12346"))
      ≠ tokenInput scenarioFields ∧
    (generateToken (scenarioFields.set (str "PaymentId") (str "12346"))
        ≠ generateToken scenarioFields ↔
      sum256 (tokenInput (scenarioFields.set (str "PaymentId") (str "12346")))
        ≠ sum256 (tokenInput scenarioFields)) :=
  value_change_changes_input scenarioFields (by decide) (str "PaymentId") (str "12346")
    (by decide) (by decide)

end Tinkoff
